import Mathlib

/-!
Verification development for the Mython interpreter core
(lexer `lexer.cpp`/`lexer.h`, runtime `runtime.cpp`, AST evaluator
`statement.cpp`).

The C++ code is embedded shallowly:

* the lexer's `std::istream` is a `List Char` (peek = `head?`,
  `get` = uncons, `putback` = cons; the `while (input_tokens_)` loop
  condition is `input ≠ []`, which matches the eofbit behaviour of the
  original because every loop iteration that exhausts the stream also
  peeks past its end);
* each `Lexer::ExtractX` member is a function from the stream (plus the
  data it inspects: the last emitted token and the indentation counter)
  to the emitted tokens and the remaining stream;
* the evaluator's `ObjectHolder` is `Option Value`, `Closure` is an
  association list with in-place update, class instances live in an
  explicit heap indexed by address, and `Statement::Execute` is a
  function `Closure → St → Res` where `Res` distinguishes normal
  results, `std::runtime_error`, and the thrown `ObjectHolder` used as
  the return signal;
* `int` payloads are modelled as `Int` (no overflow arises in the
  statements proved here), `stoi` as unbounded digit parsing, and the
  `uint16_t` indentation counters as `Nat`.
-/

namespace Mython

/-! ### Lexer: token alphabet (`lexer.h`, namespace `token_type`) -/

inductive Tok where
  | number (value : Int)
  | id (value : String)
  | str (value : String)
  | char (value : Char)
  | kwClass | kwReturn | kwIf | kwElse | kwDef | kwPrint
  | kwAnd | kwOr | kwNot | kwNone | kwTrue | kwFalse
  | newline | indent | dedent | eof
  | eq | notEq | lessOrEq | greaterOrEq
deriving DecidableEq, Repr

/-- ASCII `isalpha` as used by the C locale in `lexer.cpp`. -/
def asciiAlpha (c : Char) : Bool :=
  ('A' ≤ c && c ≤ 'Z') || ('a' ≤ c && c ≤ 'z')

/-- ASCII `isdigit`. -/
def asciiDigit (c : Char) : Bool :=
  '0' ≤ c && c ≤ '9'

/-- ASCII `isalnum`. -/
def asciiAlnum (c : Char) : Bool :=
  asciiAlpha c || asciiDigit c

/-- ASCII `ispunct`: printable, not alphanumeric, not space. -/
def asciiPunct (c : Char) : Bool :=
  (33 ≤ c.toNat && c.toNat ≤ 126) && !asciiAlnum c

/-- Characters accepted inside a word by `detail::ReadWord`. -/
def wordChar (c : Char) : Bool :=
  asciiAlnum c || c = '_'

/-- Keyword table of `Lexer::AddKeyword`, in source comparison order
(at most one entry matches a given word, so the sequence of `if`s in the
original is equivalent to a first-match lookup). -/
def keywordTable : List (String × Tok) :=
  [("class", .kwClass), ("return", .kwReturn), ("if", .kwIf),
   ("else", .kwElse), ("def", .kwDef), ("print", .kwPrint),
   ("or", .kwOr), ("None", .kwNone), ("and", .kwAnd),
   ("not", .kwNot), ("True", .kwTrue), ("False", .kwFalse)]

/-- `Lexer::AddKeyword` as a lookup: the marker token for a keyword. -/
def keywordOf (w : String) : Option Tok :=
  keywordTable.lookup w

/-- Value of a digit run, as `stoi` computes it (overflow not modelled). -/
def digitsToNat (l : List Char) : Nat :=
  l.foldl (fun a c => 10 * a + (c.toNat - 48)) 0

/-- `Lexer::ExtractKeywordOrId`: a word starting with a letter or `_` is
read maximally and emitted as a keyword or an `Id`. -/
def extractKeywordOrIdC (input : List Char) : List Tok × List Char :=
  match input with
  | [] => ([], [])
  | c :: _ =>
    if asciiAlpha c || c = '_' then
      let w : String := ⟨input.takeWhile wordChar⟩
      ([(keywordOf w).getD (Tok.id w)], input.dropWhile wordChar)
    else ([], input)

/-- `Lexer::ExtractOperatorEqOrSymbol`: punctuation other than quotes and
`#`; the pairs `!=`, `==`, `>=`, `<=` become their markers, anything else
a `Char` token. -/
def extractOpC (input : List Char) : List Tok × List Char :=
  match input with
  | [] => ([], [])
  | c :: rest =>
    if c = '#' then ([], input)
    else if !asciiPunct c || c = '"' || c = '\'' then ([], input)
    else
      match c, rest with
      | '!', '=' :: r => ([Tok.notEq], r)
      | '=', '=' :: r => ([Tok.eq], r)
      | '>', '=' :: r => ([Tok.greaterOrEq], r)
      | '<', '=' :: r => ([Tok.lessOrEq], r)
      | c, rest => ([Tok.char c], rest)

/-- `Lexer::ExtractIntValue`: a maximal digit run becomes a `Number`. -/
def extractIntC (input : List Char) : List Tok × List Char :=
  match input with
  | [] => ([], [])
  | c :: _ =>
    if asciiDigit c then
      ([Tok.number (digitsToNat (input.takeWhile asciiDigit))],
       input.dropWhile asciiDigit)
    else ([], input)

/-- Escape sequences recognised inside string literals. -/
def escapeChar (c : Char) : Option Char :=
  if c = 'n' then some '\n'
  else if c = 't' then some '\t'
  else if c = 'r' then some '\r'
  else if c = '"' then some '"'
  else if c = '\\' then some '\\'
  else if c = '\'' then some '\''
  else none

/-- Body loop of `Lexer::ExtractString` after the opening quote `q`.
Note the original pushes the accumulated token when the stream ends
before the closing quote (the `while (get)` loop just exits). -/
def strBody (q : Char) : String → List Char → Except String (Tok × List Char)
  | acc, [] => .ok (Tok.str acc, [])
  | acc, c :: rest =>
    if c = q then .ok (Tok.str acc, rest)
    else if c = '\\' then
      match rest with
      | [] => .error "The line was not closed"
      | e :: rest' =>
        match escapeChar e with
        | some ch => strBody q (acc.push ch) rest'
        | none => .error ("Unrecognized escape sequence \\" ++ String.mk [e])
    else if c = '\n' || c = '\r' then .error "Unexpected end of line"
    else strBody q (acc.push c) rest

/-- `Lexer::ExtractString`. -/
def extractStringC (input : List Char) : Except String (List Tok × List Char) :=
  match input with
  | [] => .ok ([], [])
  | c :: rest =>
    if c = '\'' || c = '"' then
      match strBody c "" rest with
      | .ok (t, r) => .ok ([t], r)
      | .error e => .error e
    else .ok ([], input)

/-- `Lexer::ExtractComments`: from `#` the rest of the physical line is
discarded (`getline` consumes the `\n`); a `Newline` is emitted unless the
token vector is empty or already ends in `Newline` or `Dedent`. -/
def extractCommentsC (back? : Option Tok) (input : List Char) :
    List Tok × List Char :=
  match input with
  | '#' :: rest =>
    let rest' := (rest.dropWhile (· ≠ '\n')).drop 1
    match back? with
    | some Tok.newline => ([], rest')
    | some Tok.dedent => ([], rest')
    | some _ => ([Tok.newline], rest')
    | none => ([], rest')
  | _ => ([], input)

/-- `Lexer::ExtractNewLine`: a `\n` is consumed; a `Newline` token is
emitted only when the token vector is non-empty and does not already end
in `Newline`. -/
def extractNewLineC (back? : Option Tok) (input : List Char) :
    List Tok × List Char :=
  match input with
  | '\n' :: rest =>
    match back? with
    | some Tok.newline => ([], rest)
    | some _ => ([Tok.newline], rest)
    | none => ([], rest)
  | _ => ([], input)

/-- Indentation step of `Lexer::ExtractDent` once the guard passed:
count leading spaces, reject an odd count, then emit the difference in
indentation levels (`num_space_dent_ = 2`). -/
def dentGo (dent : Nat) (input : List Char) :
    Except String (List Tok × List Char × Nat) :=
  if input.head? = some '\n' then .ok ([], input, dent)
  else
    let n := (input.takeWhile (· = ' ')).length
    let rest := input.dropWhile (· = ' ')
    if n % 2 = 1 then
      .error ("One of the indents contains an odd number of spaces. Num space = "
              ++ toString n)
    else if dent ≤ n / 2 then
      .ok (List.replicate (n / 2 - dent) Tok.indent, rest, n / 2)
    else
      .ok (List.replicate (dent - n / 2) Tok.dedent, rest, n / 2)

/-- `Lexer::ExtractDent`: runs only when the token vector is empty or ends
in `Newline`; a line that immediately continues with `\n` is blank and is
ignored. -/
def extractDentC (back? : Option Tok) (dent : Nat) (input : List Char) :
    Except String (List Tok × List Char × Nat) :=
  match back? with
  | some Tok.newline => dentGo dent input
  | some _ => .ok ([], input, dent)
  | none => dentGo dent input

/-- Lexer state: remaining stream, emitted tokens, current indentation
level (`current_dent_`). -/
structure LexSt where
  input : List Char
  tokens : List Tok
  currentDent : Nat
deriving DecidableEq, Repr

/-- One iteration of the `while (input_tokens_)` loop body of
`Lexer::ParseTokens`, in source order: keyword/id, operator, integer,
string, space removal, comment, newline, dent. -/
def lexStep (st : LexSt) : Except String LexSt :=
  let r1 := extractKeywordOrIdC st.input
  let k1 := st.tokens ++ r1.1
  let r2 := extractOpC r1.2
  let k2 := k1 ++ r2.1
  let r3 := extractIntC r2.2
  let k3 := k2 ++ r3.1
  match extractStringC r3.2 with
  | .error e => .error e
  | .ok (t4, i4) =>
    let k4 := k3 ++ t4
    let i5 := i4.dropWhile (· = ' ')
    let r6 := extractCommentsC k4.getLast? i5
    let k6 := k4 ++ r6.1
    let r7 := extractNewLineC k6.getLast? r6.2
    let k7 := k6 ++ r7.1
    match extractDentC k7.getLast? st.currentDent r7.2 with
    | .error e => .error e
    | .ok (t8, i8, d8) => .ok ⟨i8, k7 ++ t8, d8⟩

/-- The lexing loop, driven by fuel since the original can fail to make
progress on some streams (e.g. a tab at the start of a line). `none`
means the fuel ran out before the stream was exhausted. -/
def lexLoop : Nat → LexSt → Option (Except String LexSt)
  | 0, st => if st.input.isEmpty then some (.ok st) else none
  | fuel + 1, st =>
    if st.input.isEmpty then some (.ok st)
    else
      match lexStep st with
      | .error e => some (.error e)
      | .ok st' => lexLoop fuel st'

/-- Epilogue of `Lexer::ParseTokens`: a final `Newline` unless the vector
is empty or ends in `Newline`/`Dedent`, then `Eof`. -/
def finishTokens (toks : List Tok) : List Tok :=
  match toks.getLast? with
  | none => [Tok.eof]
  | some Tok.newline => toks ++ [Tok.eof]
  | some Tok.dedent => toks ++ [Tok.eof]
  | some _ => toks ++ [Tok.newline, Tok.eof]

/-- `Lexer::ParseTokens`: leading spaces are stripped once before the
loop (`RemovingSpacesBeforeTokens`), then the loop body runs while the
stream is non-empty. -/
def parseTokens (fuel : Nat) (input : List Char) :
    Option (Except String (List Tok)) :=
  match lexLoop fuel ⟨input.dropWhile (· = ' '), [], 0⟩ with
  | none => none
  | some (.error e) => some (.error e)
  | some (.ok st) => some (.ok (finishTokens st.tokens))

/-! ### Runtime object model (`runtime.h`/`runtime.cpp`)

Values are a tagged sum; class instances are heap cells addressed by
`Nat`, classes live in a fixed environment `ClassEnv` and are referenced
by index (the C++ `Class*`/`const Class&`). An `ObjectHolder` is `none`
for the empty holder; the owned/shared distinction has no observable
effect in a garbage-collected model, so both map to the plain value. -/

inductive Value where
  | number (n : Int)
  | str (s : String)
  | bool (b : Bool)
  | cls (idx : Nat)
  | inst (addr : Nat)
deriving DecidableEq, Repr

/-- `runtime::ObjectHolder`: empty or one object. -/
abbrev ObjectHolder := Option Value

/-- `runtime::Closure = map<string, ObjectHolder>`, as an association
list updated in place. -/
abbrev Closure := List (String × ObjectHolder)

/-- `closure.count(k)`/`closure.at(k)` combined: the binding of `k`. -/
def clGet (cl : Closure) (k : String) : Option ObjectHolder :=
  cl.lookup k

/-- `closure[k] = v`: update the existing binding or append a new one. -/
def clSet : Closure → String → ObjectHolder → Closure
  | [], k, v => [(k, v)]
  | (k', v') :: t, k, v =>
    if k' = k then (k, v) :: t else (k', v') :: clSet t k v

/-- One `runtime::ClassInstance`: its class and its field closure. -/
structure Inst where
  classIdx : Nat
  fields : Closure
deriving DecidableEq, Repr

/-- Interpreter state outside the current closure: the instance heap
and the text written to `context.GetOutputStream()`. -/
structure St where
  heap : List Inst
  output : String
deriving DecidableEq, Repr

/-- Result of `Statement::Execute(closure, context)`.  The closure is
passed by reference in C++, so every outcome carries its final state;
`sig` is the thrown `ObjectHolder` of the return signal, `err` a thrown
`std::runtime_error`. -/
inductive Res where
  | ok (v : ObjectHolder) (cl : Closure) (s : St)
  | err (m : String) (cl : Closure) (s : St)
  | sig (v : ObjectHolder) (cl : Closure) (s : St)
deriving DecidableEq, Repr

/-- A statement/expression node, shallowly embedded as its `Execute`. -/
abbrev Stmt := Closure → St → Res

/-- `runtime::Method`. -/
structure Method where
  name : String
  formal_params : List String
  body : Stmt

/-- `runtime::Class`: name, methods, optional parent (by index). -/
structure Class where
  name : String
  methods : List Method
  parent : Option Nat

abbrev ClassEnv := List Class

/-- `Class::GetMethod`: the method table maps each name to the method
record (later duplicates overwrite earlier ones, hence the `reverse`),
then the parent chain is walked.  Parent chains are acyclic in C++
(a parent is fixed before the child exists); fuel bounds the walk. -/
def getMethod (Γ : ClassEnv) : Nat → Nat → String → Option Method
  | 0, _, _ => none
  | fuel + 1, idx, name =>
    match Γ[idx]? with
    | none => none
    | some c =>
      match c.methods.reverse.find? (fun m => m.name = name) with
      | some m => some m
      | none =>
        match c.parent with
        | some p => getMethod Γ fuel p name
        | none => none

def getMethodTop (Γ : ClassEnv) (idx : Nat) (name : String) : Option Method :=
  getMethod Γ (Γ.length + 1) idx name

/-- `ClassInstance::HasMethod(method, argument_count)`
(`runtime.cpp:72`). -/
def hasMethod (Γ : ClassEnv) (idx : Nat) (name : String) (argc : Nat) : Bool :=
  match getMethodTop Γ idx name with
  | some m => m.formal_params.length = argc
  | none => false

/-- Fields of the instance at `addr` (`ClassInstance::Fields`). -/
def instFields (heap : List Inst) (addr : Nat) : Closure :=
  ((heap[addr]?).map Inst.fields).getD []

/-- Replace the instance at index `a` (heap mutation). -/
def modAt : List Inst → Nat → (Inst → Inst) → List Inst
  | [], _, _ => []
  | x :: t, 0, f => f x :: t
  | x :: t, n + 1, f => x :: modAt t n f

/-- Store `v` under `fn` in the fields of the instance at `a`. -/
def setField (s : St) (a : Nat) (fn : String) (v : ObjectHolder) : St :=
  { s with heap := modAt s.heap a (fun i => { i with fields := clSet i.fields fn v }) }

/-- `runtime::IsTrue` (`runtime.cpp:46`). -/
def isTrue : ObjectHolder → Bool
  | none => false
  | some (.bool b) => b
  | some (.number n) => n ≠ 0
  | some (.str t) => t ≠ ""
  | some _ => false

/-- Result of `ClassInstance::Call` and of the comparison helpers: no
caller closure is involved, only the state is threaded. -/
inductive CRes where
  | ok (v : ObjectHolder) (s : St)
  | err (m : String) (s : St)
  | sig (v : ObjectHolder) (s : St)
deriving Repr

/-- `ClassInstance::Call(method, actual_args, context)`
(`runtime.cpp:94`): check `HasMethod`, build a frame binding `self` and
then the formals positionally, execute the body against that frame. -/
def call (Γ : ClassEnv) (a : Nat) (mname : String)
    (actual : List ObjectHolder) (s : St) : CRes :=
  match s.heap[a]? with
  | none => .err "dangling instance" s
  | some inst =>
    if hasMethod Γ inst.classIdx mname actual.length then
      match getMethodTop Γ inst.classIdx mname with
      | none => .err ("The \"" ++ mname ++ "\" method was not found") s
      | some meth =>
        if actual.length < meth.formal_params.length then
          .err "More arguments are expected" s
        else
          let frame := (meth.formal_params.zip actual).foldl
            (fun f pa => clSet f pa.1 pa.2)
            (clSet [] "self" (some (Value.inst a)))
          match meth.body frame s with
          | .ok v _ s' => .ok v s'
          | .err m _ s' => .err m s'
          | .sig v _ s' => .sig v s'
    else .err ("The \"" ++ mname ++ "\" method was not found") s

/-- Result of `Object::Print(os, context)`: the text appended to the
given buffer plus the state (printing an instance runs `__str__`). -/
inductive PRes where
  | ok (text : String) (s : St)
  | err (m : String) (s : St)
  | sig (v : ObjectHolder) (s : St)
deriving Repr

/-- `Object::Print` for each variant (`runtime.cpp`): numbers and
strings print their payload, `Bool::Print` prints `True`/`False`,
`Class::Print` prints `Class <name>`, and `ClassInstance::Print` calls a
zero-argument `__str__` if present (printing its result, which requires
a further `Print` — bounded by fuel) and otherwise prints the address
(`os << this`, implementation-defined; rendered here as `@addr`). An
empty holder returned by `__str__` fails `AssertIsValid`. -/
def objPrint (Γ : ClassEnv) : Nat → Value → St → PRes
  | _, .number n, s => .ok (toString n) s
  | _, .str t, s => .ok t s
  | _, .bool b, s => .ok (if b then "True" else "False") s
  | _, .cls i, s => .ok ("Class " ++ ((Γ[i]?).map Class.name).getD "") s
  | fuel, .inst a, s =>
    match s.heap[a]? with
    | none => .err "dangling instance" s
    | some inst =>
      if hasMethod Γ inst.classIdx "__str__" 0 then
        match call Γ a "__str__" [] s with
        | .err m s' => .err m s'
        | .sig v s' => .sig v s'
        | .ok none s' => .err "ObjectHolder::AssertIsValid failed" s'
        | .ok (some v) s' =>
          match fuel with
          | 0 => .err "Print recursion limit" s'
          | fuel' + 1 => objPrint Γ fuel' v s'
      else .ok ("@" ++ toString a) s

/-- Result of the comparison predicates `Equal`/`Less`, which return a
plain C++ `bool`. -/
inductive BRes where
  | ok (b : Bool) (s : St)
  | err (m : String) (s : St)
  | sig (v : ObjectHolder) (s : St)
deriving DecidableEq, Repr

/-- `runtime::Equal` (`runtime.cpp:150`): empty==empty, then the three
primitive pairs by value, then dispatch to `__eq__/1`; the original
reads the call's result through `TryAs<Bool>()->GetValue()` with no
check, so a non-`Bool` result dereferences a null pointer (modelled as
an error outcome). -/
def equalFn (Γ : ClassEnv) (l r : ObjectHolder) (s : St) : BRes :=
  match l, r with
  | none, none => .ok true s
  | some (Value.bool a), some (Value.bool b) => .ok (decide (a = b)) s
  | some (Value.number a), some (Value.number b) => .ok (decide (a = b)) s
  | some (Value.str a), some (Value.str b) => .ok (decide (a = b)) s
  | l, r =>
    match l with
    | some (Value.inst a) =>
      match s.heap[a]? with
      | some inst =>
        if hasMethod Γ inst.classIdx "__eq__" 1 then
          match call Γ a "__eq__" [r] s with
          | .ok (some (Value.bool b)) s' => .ok b s'
          | .ok _ s' => .err "TryAs<Bool> returned null (undefined behavior)" s'
          | .err m s' => .err m s'
          | .sig v s' => .sig v s'
        else .err "Cannot compare objects for equality" s
      | none => .err "Cannot compare objects for equality" s
    | _ => .err "Cannot compare objects for equality" s

/-- `runtime::Less` (`runtime.cpp:173`): the three primitive pairs by
native `<`, then `__lt__/1` with the same unchecked `TryAs<Bool>`. -/
def lessFn (Γ : ClassEnv) (l r : ObjectHolder) (s : St) : BRes :=
  match l, r with
  | some (Value.bool a), some (Value.bool b) => .ok (!a && b) s
  | some (Value.number a), some (Value.number b) => .ok (decide (a < b)) s
  | some (Value.str a), some (Value.str b) => .ok (decide (a < b)) s
  | l, r =>
    match l with
    | some (Value.inst a) =>
      match s.heap[a]? with
      | some inst =>
        if hasMethod Γ inst.classIdx "__lt__" 1 then
          match call Γ a "__lt__" [r] s with
          | .ok (some (Value.bool b)) s' => .ok b s'
          | .ok _ s' => .err "TryAs<Bool> returned null (undefined behavior)" s'
          | .err m s' => .err m s'
          | .sig v s' => .sig v s'
        else .err "Cannot compare objects for less" s
      | none => .err "Cannot compare objects for less" s
    | _ => .err "Cannot compare objects for less" s

/-! ### AST nodes (`statement.cpp`) -/

/-- Loop body of `VariableValue::Execute` (`statement.cpp:29`): scan the
dotted ids over a working closure (initially a copy of the enclosing
one).  A bound final segment returns its holder; a bound intermediate
segment that is a `ClassInstance` moves the working closure to its
fields; any other segment — unbound, or bound to a non-instance — leaves
the working closure unchanged and the scan continues.  Falling off the
end is the `throw` at `statement.cpp:43`, signalled by `none`. -/
def varLoop (heap : List Inst) : List String → Closure → Option ObjectHolder
  | [], _ => none
  | [x], cl =>
    match clGet cl x with
    | some h => some h
    | none => none
  | x :: rest, cl =>
    match clGet cl x with
    | some (some (Value.inst a)) => varLoop heap rest (instFields heap a)
    | some _ => varLoop heap rest cl
    | none => varLoop heap rest cl

/-- `VariableValue::Execute`. -/
def variableValueExec (ids : List String) : Stmt := fun cl s =>
  match varLoop s.heap ids cl with
  | some h => .ok h cl s
  | none => .err "Unexpected error of the \"VariableValue::Execute\" method" cl s

/-- `FieldAssignment::Execute` (`statement.cpp:67`): evaluate the object
(must be an instance), take `Fields()[field]` — `operator[]` inserts an
empty holder when the field is absent — evaluate the right-hand side,
store it through that reference, and additionally copy it into the
enclosing closure (`closure[field_name_] = field`, `statement.cpp:75`). -/
def fieldAssignmentExec (object : Stmt) (fname : String) (rhs : Stmt) : Stmt :=
  fun cl s =>
    match object cl s with
    | .err m cl1 s1 => .err m cl1 s1
    | .sig v cl1 s1 => .sig v cl1 s1
    | .ok oh cl1 s1 =>
      match oh with
      | some (Value.inst a) =>
        let s2 := if (clGet (instFields s1.heap a) fname).isSome then s1
                  else setField s1 a fname none
        match rhs cl1 s2 with
        | .err m cl2 s3 => .err m cl2 s3
        | .sig v cl2 s3 => .sig v cl2 s3
        | .ok v cl2 s3 => .ok v (clSet cl2 fname v) (setField s3 a fname v)
      | _ => .err "FieldAssignment::Execute. The object is not a custom type" cl1 s1

/-- Accumulation loop of `Print::Execute` (`statement.cpp:100`): build
the line in a local buffer, separating arguments with single spaces;
empty holders print as `None`, everything else through `Object::Print`. -/
def printGo (Γ : ClassEnv) (fuel : Nat) :
    List Stmt → Bool → String → Closure → St → Res
  | [], _, acc, cl, s =>
    .ok (some (Value.str acc)) cl { s with output := s.output ++ acc ++ "\n" }
  | a :: rest, first, acc, cl, s =>
    let acc' := if first then acc else acc ++ " "
    match a cl s with
    | .err m cl' s' => .err m cl' s'
    | .sig v cl' s' => .sig v cl' s'
    | .ok oh cl' s' =>
      match oh with
      | none => printGo Γ fuel rest false (acc' ++ "None") cl' s'
      | some v =>
        match objPrint Γ fuel v s' with
        | .ok t s'' => printGo Γ fuel rest false (acc' ++ t) cl' s''
        | .err m s'' => .err m cl' s''
        | .sig w s'' => .sig w cl' s''

/-- `Print::Execute`: writes the buffer plus `endl` to
`context.GetOutputStream()` and returns an owned `String` of the buffer
(without the newline). -/
def printExec (Γ : ClassEnv) (fuel : Nat) (args : List Stmt) : Stmt :=
  fun cl s => printGo Γ fuel args true "" cl s

/-- `Stringify::Execute` (`statement.cpp:180`): evaluate the argument;
an empty holder renders as `"None"`, anything else through
`Object::Print` into a fresh buffer; the result is an owned `String`. -/
def stringifyExec (Γ : ClassEnv) (fuel : Nat) (arg : Stmt) : Stmt := fun cl s =>
  match arg cl s with
  | .err m cl' s' => .err m cl' s'
  | .sig v cl' s' => .sig v cl' s'
  | .ok none cl' s' => .ok (some (Value.str "None")) cl' s'
  | .ok (some v) cl' s' =>
    match objPrint Γ fuel v s' with
    | .ok t s'' => .ok (some (Value.str t)) cl' s''
    | .err m s'' => .err m cl' s''
    | .sig w s'' => .sig w cl' s''

/-- `lhs_ptr && lhs_ptr->GetValue()`: the holder downcasts to a `Bool`
that is true. -/
def isTrueBool (oh : ObjectHolder) : Bool :=
  match oh with
  | some (Value.bool b) => b
  | _ => false

/-- `Or::Execute` (`statement.cpp:267`): if the left operand is a true
`Bool`, return owned `Bool(true)` without evaluating the right; else the
result is `Bool` of whether the right operand is a true `Bool`. -/
def orExec (lhs rhs : Stmt) : Stmt := fun cl s =>
  match lhs cl s with
  | .err m cl' s' => .err m cl' s'
  | .sig v cl' s' => .sig v cl' s'
  | .ok v cl' s' =>
    if isTrueBool v then .ok (some (Value.bool true)) cl' s'
    else
      match rhs cl' s' with
      | .err m cl'' s'' => .err m cl'' s''
      | .sig w cl'' s'' => .sig w cl'' s''
      | .ok w cl'' s'' => .ok (some (Value.bool (isTrueBool w))) cl'' s''

/-- `And::Execute` (`statement.cpp:281`): if the left operand is not a
true `Bool`, return owned `Bool(false)` without evaluating the right;
else the result is `Bool` of whether the right operand is a true
`Bool`. -/
def andExec (lhs rhs : Stmt) : Stmt := fun cl s =>
  match lhs cl s with
  | .err m cl' s' => .err m cl' s'
  | .sig v cl' s' => .sig v cl' s'
  | .ok v cl' s' =>
    if isTrueBool v then
      match rhs cl' s' with
      | .err m cl'' s'' => .err m cl'' s''
      | .sig w cl'' s'' => .sig w cl'' s''
      | .ok w cl'' s'' => .ok (some (Value.bool (isTrueBool w))) cl'' s''
    else .ok (some (Value.bool false)) cl' s'

/-- `MethodBody::Execute` (`statement.cpp:323`): run the body;
`catch (ObjectHolder result)` turns a return signal into the result;
runtime errors pass through. -/
def methodBodyExec (body : Stmt) : Stmt := fun cl s =>
  match body cl s with
  | .ok v cl' s' => .ok v cl' s'
  | .err m cl' s' => .err m cl' s'
  | .sig v cl' s' => .ok v cl' s'

/-- `Return::Execute` (`statement.cpp:337`): evaluate the expression and
throw its value (`throw statement_->Execute(closure, context)`). -/
def returnExec (stmt : Stmt) : Stmt := fun cl s =>
  match stmt cl s with
  | .ok v cl' s' => .sig v cl' s'
  | .err m cl' s' => .err m cl' s'
  | .sig v cl' s' => .sig v cl' s'

/-- Result of evaluating a list of argument expressions left to right. -/
inductive LRes where
  | ok (vs : List ObjectHolder) (cl : Closure) (s : St)
  | err (m : String) (cl : Closure) (s : St)
  | sig (v : ObjectHolder) (cl : Closure) (s : St)
deriving Repr

/-- Left-to-right evaluation of actual arguments (the loops in
`MethodCall::Execute` and `NewInstance::Execute`). -/
def argsEval : List Stmt → Closure → St → LRes
  | [], cl, s => .ok [] cl s
  | a :: rest, cl, s =>
    match a cl s with
    | .err m cl' s' => .err m cl' s'
    | .sig v cl' s' => .sig v cl' s'
    | .ok v cl' s' =>
      match argsEval rest cl' s' with
      | .ok vs cl'' s'' => .ok (v :: vs) cl'' s''
      | .err m cl'' s'' => .err m cl'' s''
      | .sig w cl'' s'' => .sig w cl'' s''

/-- `NewInstance::Execute` (`statement.cpp:159`): the node owns one
`ClassInstance` (here: the heap cell at `addr`, whose fields are empty
when the node is freshly constructed).  Only when the class has an
`__init__` matching the argument count are the arguments evaluated and
`__init__` called (its result discarded); in every case the result is
`ObjectHolder::Share` onto that instance. -/
def newInstanceExec (Γ : ClassEnv) (classIdx addr : Nat) (args : List Stmt) :
    Stmt := fun cl s =>
  if hasMethod Γ classIdx "__init__" args.length then
    match argsEval args cl s with
    | .err m cl' s' => .err m cl' s'
    | .sig v cl' s' => .sig v cl' s'
    | .ok vs cl' s' =>
      match call Γ addr "__init__" vs s' with
      | .ok _ s'' => .ok (some (Value.inst addr)) cl' s''
      | .err m s'' => .err m cl' s''
      | .sig v s'' => .sig v cl' s''
  else .ok (some (Value.inst addr)) cl s

/-! ### Predicates used by the claim statements -/

/-- Number of `Indent` tokens. -/
def indCnt (l : List Tok) : Nat := l.count Tok.indent

/-- Number of `Dedent` tokens. -/
def dedCnt (l : List Tok) : Nat := l.count Tok.dedent

/-- Every prefix of the token list has at least as many `Indent` as
`Dedent` tokens. -/
def PrefBalanced (l : List Tok) : Prop :=
  ∀ p : List Tok, p <+: l → dedCnt p ≤ indCnt p

/-- Invariant carried through the lexing loop: the emitted tokens are
prefix-balanced and the surplus of `Indent` over `Dedent` equals
`current_dent_`. -/
def LexInv (toks : List Tok) (dent : Nat) : Prop :=
  PrefBalanced toks ∧ indCnt toks = dedCnt toks + dent

/-- A token list free of `Indent` and `Dedent`. -/
def NoDent (l : List Tok) : Prop :=
  Tok.indent ∉ l ∧ Tok.dedent ∉ l

/-- A dotted-identifier chain resolves as the specification describes:
the first segment in the current closure, each subsequent segment in the
field closure of the `ClassInstance` the previous segment denoted, the
final segment yielding holder `h`. -/
def chainResolves (heap : List Inst) : List String → Closure → ObjectHolder → Prop
  | [], _, _ => False
  | [x], cl, h => clGet cl x = some h
  | x :: rest, cl, h =>
    ∃ a, clGet cl x = some (some (Value.inst a)) ∧
      chainResolves heap rest (instFields heap a) h

/-- The pairs handled by the primitive branches of `Equal`:
both empty, or two `Bool`s, two `Number`s, or two `String`s. -/
def eqPrimPair (l r : ObjectHolder) : Prop :=
  (l = none ∧ r = none) ∨
  (∃ a b : Bool, l = some (Value.bool a) ∧ r = some (Value.bool b)) ∨
  (∃ a b : Int, l = some (Value.number a) ∧ r = some (Value.number b)) ∨
  (∃ a b : String, l = some (Value.str a) ∧ r = some (Value.str b))

/-- Two non-empty holders of the same primitive kind. -/
def samePrimPair (a b : Value) : Prop :=
  (∃ n m : Int, a = Value.number n ∧ b = Value.number m) ∨
  (∃ t u : String, a = Value.str t ∧ b = Value.str u) ∨
  (∃ x y : Bool, a = Value.bool x ∧ b = Value.bool y)

/-! ### Concrete fixtures for counterexamples and witnesses -/

/-- A class with no methods at all. -/
def egClassX : Class := ⟨"X", [], none⟩

/-- Environment with one class whose `__eq__/1` returns `Number 0`
(a non-`Bool`). -/
def egEqEnv : ClassEnv :=
  [⟨"C", [⟨"__eq__", ["o"], fun cl s => .ok (some (Value.number 0)) cl s⟩], none⟩]

/-- Environment with one class whose `__str__/0` is `print "x"` — its
body writes to the user output sink and returns the printed text. -/
def egStrEnv : ClassEnv :=
  [⟨"E", [⟨"__str__", [],
    printExec [] 0 [fun cl s => .ok (some (Value.str "x")) cl s]⟩], none⟩]

/-- State holding a single instance of class index 0 with empty fields
and an empty output sink. -/
def egSt0 : St := ⟨[⟨0, []⟩], ""⟩

/-! ## Theorems -/

/-! ### C7 — return signal vs runtime errors -/

/-- C7: `Return::Execute` raises a return signal carrying the evaluated
expression's value; `MethodBody::Execute` yields a normal result exactly
for a body that finished normally or raised that signal, propagates a
runtime error unchanged (never converting it into a return value), and
never lets a return signal escape. -/
theorem C7_return_signal (body stmt : Stmt) (cl : Closure) (s : St) :
    (∀ v cl' s', stmt cl s = .ok v cl' s' →
      returnExec stmt cl s = .sig v cl' s') ∧
    (∀ v cl' s', methodBodyExec body cl s = .ok v cl' s' ↔
      (body cl s = .ok v cl' s' ∨ body cl s = .sig v cl' s')) ∧
    (∀ m cl' s', methodBodyExec body cl s = .err m cl' s' ↔
      body cl s = .err m cl' s') ∧
    (∀ v cl' s', methodBodyExec body cl s ≠ .sig v cl' s') := by
  refine ⟨?_, ?_, ?_, ?_⟩
  · intro v cl' s' h
    simp only [returnExec, h]
  · intro v cl' s'
    simp only [methodBodyExec]
    cases h : body cl s <;> simp
  · intro m cl' s'
    simp only [methodBodyExec]
    cases h : body cl s <;> simp
  · intro v cl' s'
    simp only [methodBodyExec]
    cases h : body cl s <;> simp

/-- Witness for C7 at a concrete body and expression. -/
theorem C7_return_signal_witness :
    returnExec (fun cl s => Res.ok (some (Value.number 7)) cl s) [] egSt0
      = .sig (some (Value.number 7)) [] egSt0 :=
  (C7_return_signal (fun cl s => Res.ok none cl s)
    (fun cl s => Res.ok (some (Value.number 7)) cl s) [] egSt0).1 _ _ _ rfl

/-! ### C8 — short-circuit `Or` / `And` on `Bool` only -/

/-- C8: `Or` returns owned `Bool(true)` without evaluating the right
operand when the left evaluates to a true `Bool` (the conclusion holds
for every `rhs`); otherwise it returns `Bool` of whether the right
operand is a true `Bool`.  `And` returns owned `Bool(false)` without
evaluating the right operand when the left is not a true `Bool`;
otherwise `Bool` of whether the right is a true `Bool`.  Non-`Bool`
operands count as false via `isTrueBool` (no truthiness coercion), and
every normal result is an owned `Bool`. -/
theorem C8_logic_short_circuit (lhs rhs : Stmt) (cl : Closure) (s : St) :
    (∀ v cl' s', lhs cl s = .ok v cl' s' → isTrueBool v = true →
      orExec lhs rhs cl s = .ok (some (Value.bool true)) cl' s') ∧
    (∀ v cl' s' w cl'' s'', lhs cl s = .ok v cl' s' → isTrueBool v = false →
      rhs cl' s' = .ok w cl'' s'' →
      orExec lhs rhs cl s = .ok (some (Value.bool (isTrueBool w))) cl'' s'') ∧
    (∀ v cl' s', lhs cl s = .ok v cl' s' → isTrueBool v = false →
      andExec lhs rhs cl s = .ok (some (Value.bool false)) cl' s') ∧
    (∀ v cl' s' w cl'' s'', lhs cl s = .ok v cl' s' → isTrueBool v = true →
      rhs cl' s' = .ok w cl'' s'' →
      andExec lhs rhs cl s = .ok (some (Value.bool (isTrueBool w))) cl'' s'') := by
  refine ⟨?_, ?_, ?_, ?_⟩
  · intro v cl' s' h ht
    simp only [orExec, h, ht, if_true]
  · intro v cl' s' w cl'' s'' h ht hr
    simp only [orExec, h, ht, Bool.false_eq_true, if_false, hr]
  · intro v cl' s' h ht
    simp only [andExec, h, ht, Bool.false_eq_true, if_false]
  · intro v cl' s' w cl'' s'' h ht hr
    simp only [andExec, h, ht, if_true, hr]

/-- Witness for C8: a true-`Bool` left operand short-circuits `Or` even
though the right operand would write to the output sink. -/
theorem C8_logic_short_circuit_witness :
    orExec (fun cl s => Res.ok (some (Value.bool true)) cl s)
      (fun cl s => Res.ok none cl { s with output := s.output ++ "side effect" })
      [] egSt0 = .ok (some (Value.bool true)) [] egSt0 :=
  (C8_logic_short_circuit _ _ [] egSt0).1 _ _ _ rfl rfl

/-! ### C10 — `NewInstance` with no matching `__init__` -/

/-- C10: when the class has no `__init__` of matching arity,
`NewInstance::Execute` raises no error, evaluates none of the argument
expressions (the result and state are those of entry, for any argument
list of that length), and returns a non-owning holder onto the node's
instance; if the node's instance cell still has its freshly-constructed
empty field closure, the returned instance's fields are empty. -/
theorem C10_new_instance_without_init (Γ : ClassEnv) (ci addr : Nat)
    (args : List Stmt) (cl : Closure) (s : St)
    (h : hasMethod Γ ci "__init__" args.length = false) :
    newInstanceExec Γ ci addr args cl s = .ok (some (Value.inst addr)) cl s ∧
    (s.heap[addr]? = some ⟨ci, []⟩ → instFields s.heap addr = []) := by
  constructor
  · simp only [newInstanceExec, h, Bool.false_eq_true, if_false]
  · intro h2
    simp [instFields, h2]

/-- Witness for C10: a methodless class, one argument whose evaluation
would write to the sink; the store and closure are untouched and the
instance's fields are empty. -/
theorem C10_new_instance_without_init_witness :
    hasMethod [egClassX] 0 "__init__" 1 = false ∧
    newInstanceExec [egClassX] 0 0
      [fun cl s => Res.ok none cl { s with output := s.output ++ "boom" }]
      [] egSt0 = .ok (some (Value.inst 0)) [] egSt0 ∧
    instFields egSt0.heap 0 = [] :=
  ⟨rfl,
   (C10_new_instance_without_init [egClassX] 0 0 _ [] egSt0 rfl).1,
   (C10_new_instance_without_init [egClassX] 0 0
     [fun cl s => Res.ok none cl { s with output := s.output ++ "boom" }]
     [] egSt0 rfl).2 rfl⟩

/-! ### C1 — `FieldAssignment` also writes into the enclosing closure -/

/-- C1: executing `x.f = 42` with `x` bound to an instance with empty
fields stores `42` into the instance's field closure and returns it, but
`statement.cpp:75` (`closure[field_name_] = field`) additionally creates
the binding `f ↦ 42` in the enclosing closure, which evaluating `x` and
`42` alone would not create (the closure holds no binding `f` on entry,
and neither sub-evaluation touches the closure). -/
theorem C1_field_assignment_writes_outer_closure :
    fieldAssignmentExec (variableValueExec ["x"]) "f"
      (fun cl s => Res.ok (some (Value.number 42)) cl s)
      [("x", some (Value.inst 0))] egSt0
      = .ok (some (Value.number 42))
          [("x", some (Value.inst 0)), ("f", some (Value.number 42))]
          ⟨[⟨0, [("f", some (Value.number 42))]⟩], ""⟩ ∧
    clGet [("x", some (Value.inst 0))] "f" = none ∧
    variableValueExec ["x"] [("x", some (Value.inst 0))] egSt0
      = .ok (some (Value.inst 0)) [("x", some (Value.inst 0))] egSt0 :=
  ⟨rfl, rfl, rfl⟩

/-! ### C4 — `VariableValue` resolution of dotted chains -/

/-- Helper: a chain that resolves as the specification describes makes
`varLoop` return the final holder. -/
theorem varLoop_of_chainResolves (heap : List Inst) :
    ∀ (ids : List String) (cl : Closure) (h : ObjectHolder),
      chainResolves heap ids cl h → varLoop heap ids cl = some h := by
  intro ids
  induction ids with
  | nil => intro cl h hc; exact absurd hc (by simp [chainResolves])
  | cons x rest ih =>
    intro cl h hc
    cases rest with
    | nil =>
      simp only [chainResolves] at hc
      simp [varLoop, hc]
    | cons y t =>
      simp only [chainResolves] at hc
      obtain ⟨a, hx, hrest⟩ := hc
      simp only [varLoop, hx]
      exact ih _ _ hrest

/-- Helper: when the final segment is bound neither in the starting
closure nor in any instance's field closure, the scan falls through. -/
theorem varLoop_last_unbound (heap : List Inst) (L : String)
    (hall : ∀ a, clGet (instFields heap a) L = none) :
    ∀ (ids : List String) (cl : Closure),
      ids.getLast? = some L → clGet cl L = none →
      varLoop heap ids cl = none := by
  intro ids
  induction ids with
  | nil => intro cl hL _; simp at hL
  | cons x rest ih =>
    intro cl hL hcl
    cases rest with
    | nil =>
      simp only [List.getLast?_singleton, Option.some.injEq] at hL
      subst hL
      simp [varLoop, hcl]
    | cons y t =>
      rw [List.getLast?_cons_cons] at hL
      cases hx : clGet cl x with
      | none => simp only [varLoop, hx]; exact ih _ hL hcl
      | some h0 =>
        cases h0 with
        | none => simp only [varLoop, hx]; exact ih _ hL hcl
        | some v =>
          cases v with
          | inst a => simp only [varLoop, hx]; exact ih _ hL (hall a)
          | number n => simp only [varLoop, hx]; exact ih _ hL hcl
          | str t' => simp only [varLoop, hx]; exact ih _ hL hcl
          | bool b => simp only [varLoop, hx]; exact ih _ hL hcl
          | cls i => simp only [varLoop, hx]; exact ih _ hL hcl

/-- C4 counterexample: with `dotted_ids = ["x", "y"]` and a closure
binding only `y`, the first segment `x` is unbound at its lookup point,
yet `VariableValue::Execute` returns `y`'s holder instead of raising:
the loop at `statement.cpp:32` skips a segment that is not found and
continues in the same closure. -/
theorem C4_counterexample :
    variableValueExec ["x", "y"] [("y", some (Value.number 1))] ⟨[], ""⟩
      = .ok (some (Value.number 1)) [("y", some (Value.number 1))] ⟨[], ""⟩ ∧
    clGet [("y", some (Value.number 1))] "x" = none :=
  ⟨rfl, rfl⟩

/-- C4 (amended): when every segment resolves — the first in the current
closure, each subsequent in the field closure of the instance the
previous segment denoted — `VariableValue::Execute` returns the final
holder; and it raises the runtime error when the final segment is bound
neither in the current closure nor in any instance's field closure.  An
unbound intermediate segment alone does not raise: the scan skips it. -/
theorem C4_variable_value_resolution (ids : List String) (L : String)
    (cl : Closure) (s : St) :
    (∀ h, chainResolves s.heap ids cl h →
      variableValueExec ids cl s = .ok h cl s) ∧
    (ids.getLast? = some L → clGet cl L = none →
      (∀ a, clGet (instFields s.heap a) L = none) →
      variableValueExec ids cl s
        = .err "Unexpected error of the \"VariableValue::Execute\" method" cl s) := by
  constructor
  · intro h hc
    simp only [variableValueExec, varLoop_of_chainResolves s.heap ids cl h hc]
  · intro hL hcl hall
    simp only [variableValueExec, varLoop_last_unbound s.heap L hall ids cl hL hcl]

/-- Witness for C4 at concrete inputs: a two-segment chain through an
instance field resolves to the field's holder, and a chain whose final
segment is bound nowhere raises. -/
theorem C4_variable_value_resolution_witness :
    variableValueExec ["x", "f"]
      [("x", some (Value.inst 0))] ⟨[⟨0, [("f", some (Value.number 3))]⟩], ""⟩
      = .ok (some (Value.number 3)) [("x", some (Value.inst 0))]
          ⟨[⟨0, [("f", some (Value.number 3))]⟩], ""⟩ ∧
    variableValueExec ["z"] [] egSt0
      = .err "Unexpected error of the \"VariableValue::Execute\" method" [] egSt0 :=
  ⟨(C4_variable_value_resolution ["x", "f"] "f" _ _).1 _
     ⟨0, rfl, rfl⟩,
   (C4_variable_value_resolution ["z"] "z" [] egSt0).2 rfl rfl
     (fun a => by cases a <;> simp [instFields, clGet, egSt0])⟩

/-! ### C5 — `Equal` -/

/-- C5 counterexample: with an `__eq__/1` that returns `Number 0`,
`Equal` does not return the result coerced to bool (which `IsTrue` would
make `false`); `runtime.cpp:167` reads it through
`TryAs<Bool>()->GetValue()`, a null-pointer dereference, modelled as an
error outcome. -/
theorem C5_counterexample :
    equalFn egEqEnv (some (Value.inst 0)) none egSt0
      = .err "TryAs<Bool> returned null (undefined behavior)" egSt0 ∧
    isTrue (some (Value.number 0)) = false ∧
    hasMethod egEqEnv 0 "__eq__" 1 = true :=
  ⟨rfl, rfl, rfl⟩

/-- C5 (amended): `Equal` returns true for two empty holders, value
equality for matching primitive pairs, and for an instance with
`__eq__/1` the `Bool` payload of the call's result — a non-`Bool` result
is not coerced but dereferences null (modelled as an error); every
remaining case raises the "Cannot compare" runtime error. -/
theorem C5_equal_semantics (Γ : ClassEnv) (s : St) :
    (equalFn Γ none none s = .ok true s) ∧
    (∀ a b : Bool, equalFn Γ (some (Value.bool a)) (some (Value.bool b)) s
      = .ok (decide (a = b)) s) ∧
    (∀ a b : Int, equalFn Γ (some (Value.number a)) (some (Value.number b)) s
      = .ok (decide (a = b)) s) ∧
    (∀ a b : String, equalFn Γ (some (Value.str a)) (some (Value.str b)) s
      = .ok (decide (a = b)) s) ∧
    (∀ addr i r, s.heap[addr]? = some i →
      hasMethod Γ i.classIdx "__eq__" 1 = true →
      (∀ b s', call Γ addr "__eq__" [r] s = .ok (some (Value.bool b)) s' →
        equalFn Γ (some (Value.inst addr)) r s = .ok b s') ∧
      (∀ v s', call Γ addr "__eq__" [r] s = .ok v s' →
        (∀ b, v ≠ some (Value.bool b)) →
        equalFn Γ (some (Value.inst addr)) r s
          = .err "TryAs<Bool> returned null (undefined behavior)" s')) ∧
    (∀ addr r, (∀ i, s.heap[addr]? = some i →
        hasMethod Γ i.classIdx "__eq__" 1 = false) →
      equalFn Γ (some (Value.inst addr)) r s
        = .err "Cannot compare objects for equality" s) ∧
    (∀ l r, ¬ eqPrimPair l r → (∀ a, l ≠ some (Value.inst a)) →
      equalFn Γ l r s = .err "Cannot compare objects for equality" s) := by
  refine ⟨rfl, fun a b => rfl, fun a b => rfl, fun a b => rfl, ?_, ?_, ?_⟩
  · intro addr i r hh hm
    constructor
    · intro b s' hc
      simp only [equalFn, hh, hm, if_true, hc]
    · intro v s' hc hv
      simp only [equalFn, hh, hm, if_true, hc]
  · intro addr r hno
    cases hh : s.heap[addr]? with
    | none => simp only [equalFn, hh]
    | some i => simp only [equalFn, hh, hno i hh, Bool.false_eq_true, if_false]
  · intro l r hnp hni
    rcases l with _ | v
    · rcases r with _ | w
      · exact absurd (Or.inl ⟨rfl, rfl⟩) hnp
      · rfl
    · rcases v with n | t | b | i | a
      · rcases r with _ | w
        · rfl
        · rcases w with m | u | c | j | a2
          · exact absurd (Or.inr (Or.inr (Or.inl ⟨n, m, rfl, rfl⟩))) hnp
          all_goals rfl
      · rcases r with _ | w
        · rfl
        · rcases w with m | u | c | j | a2
          · rfl
          · exact absurd (Or.inr (Or.inr (Or.inr ⟨t, u, rfl, rfl⟩))) hnp
          all_goals rfl
      · rcases r with _ | w
        · rfl
        · rcases w with m | u | c | j | a2
          · rfl
          · rfl
          · exact absurd (Or.inr (Or.inl ⟨b, c, rfl, rfl⟩)) hnp
          all_goals rfl
      · rcases r with _ | w
        · rfl
        · rcases w with m | u | c | j | a2 <;> rfl
      · exact absurd rfl (hni a)

/-- Witness for C5 at concrete inputs: an `__eq__` that returns
`Bool true` is dispatched, and a `Number`/`String` pair raises. -/
theorem C5_equal_semantics_witness :
    equalFn [⟨"C", [⟨"__eq__", ["o"],
        fun cl s => Res.ok (some (Value.bool true)) cl s⟩], none⟩]
      (some (Value.inst 0)) none egSt0 = .ok true egSt0 ∧
    equalFn [] (some (Value.number 1)) (some (Value.str "a")) egSt0
      = .err "Cannot compare objects for equality" egSt0 :=
  ⟨((C5_equal_semantics [⟨"C", [⟨"__eq__", ["o"],
        fun cl s => Res.ok (some (Value.bool true)) cl s⟩], none⟩] egSt0).2.2.2.2.1
      0 ⟨0, []⟩ none rfl rfl).1 true egSt0 rfl,
   (C5_equal_semantics [] egSt0).2.2.2.2.2.2 (some (Value.number 1))
     (some (Value.str "a"))
     (by intro h; rcases h with ⟨h, _⟩ | ⟨_, _, h1, h2⟩ | ⟨_, _, h1, h2⟩ | ⟨_, _, h1, h2⟩ <;>
       simp_all)
     (by intro a h; simp at h)⟩

/-! ### C6 — comparison consistency on primitives -/

/-- C6: for matching primitive pairs, `Equal(a,b)` returns true exactly
when both `Less(a,b)` and `Less(b,a)` return false; primitive
comparisons leave the state untouched. -/
theorem C6_equal_iff_not_less (Γ : ClassEnv) (s : St) (a b : Value)
    (h : samePrimPair a b) :
    equalFn Γ (some a) (some b) s = .ok true s ↔
      (lessFn Γ (some a) (some b) s = .ok false s ∧
       lessFn Γ (some b) (some a) s = .ok false s) := by
  rcases h with ⟨n, m, rfl, rfl⟩ | ⟨t, u, rfl, rfl⟩ | ⟨x, y, rfl, rfl⟩
  · simp only [equalFn, lessFn, BRes.ok.injEq, and_true,
      decide_eq_true_eq, decide_eq_false_iff_not]
    omega
  · simp only [equalFn, lessFn, BRes.ok.injEq, and_true,
      decide_eq_true_eq, decide_eq_false_iff_not]
    constructor
    · rintro rfl
      exact ⟨lt_irrefl t, lt_irrefl t⟩
    · rintro ⟨h1, h2⟩
      exact le_antisymm (not_lt.mp h2) (not_lt.mp h1)
  · cases x <;> cases y <;> simp [equalFn, lessFn]

/-- Witness for C6 on a concrete primitive pair. -/
theorem C6_equal_iff_not_less_witness :
    equalFn [] (some (Value.number 4)) (some (Value.number 4)) egSt0
      = .ok true egSt0 :=
  (C6_equal_iff_not_less [] egSt0 (Value.number 4) (Value.number 4)
    (Or.inl ⟨4, 4, rfl, rfl⟩)).mpr ⟨rfl, rfl⟩

/-! ### Lexer invariant machinery for C2/C3 -/

theorem noDent_nil : NoDent [] :=
  ⟨by simp, by simp⟩

theorem noDent_single {t : Tok} (h1 : t ≠ Tok.indent) (h2 : t ≠ Tok.dedent) :
    NoDent [t] := by
  refine ⟨fun h => ?_, fun h => ?_⟩
  · exact h1 (List.mem_singleton.mp h).symm
  · exact h2 (List.mem_singleton.mp h).symm

/-- A prefix of a concatenation is a prefix of the left part or extends
it by a prefix of the right part. -/
theorem prefix_append_split {α : Type _} {p l m : List α} (h : p <+: l ++ m) :
    p <+: l ∨ ∃ p', p = l ++ p' ∧ p' <+: m := by
  have hp := List.prefix_iff_eq_take.mp h
  rw [List.take_append_eq_append_take] at hp
  rcases Nat.le_total p.length l.length with hle | hge
  · left
    rw [Nat.sub_eq_zero_of_le hle, List.take_zero, List.append_nil] at hp
    exact hp ▸ List.take_prefix _ _
  · right
    rw [List.take_of_length_le hge] at hp
    exact ⟨_, hp, List.take_prefix _ _⟩

theorem prefBalanced_append {l m : List Tok} (hl : PrefBalanced l)
    (hm : ∀ p, p <+: m → dedCnt l + dedCnt p ≤ indCnt l + indCnt p) :
    PrefBalanced (l ++ m) := by
  intro p hp
  rcases prefix_append_split hp with h | ⟨p', rfl, hp'⟩
  · exact hl p h
  · simp only [dedCnt, indCnt, List.count_append]
    exact hm p' hp'

theorem noDent_counts {m : List Tok} (h : NoDent m) :
    indCnt m = 0 ∧ dedCnt m = 0 :=
  ⟨List.count_eq_zero.mpr h.1, List.count_eq_zero.mpr h.2⟩

theorem noDent_of_pref {p m : List Tok} (h : NoDent m) (hp : p <+: m) :
    NoDent p :=
  ⟨fun hx => h.1 (hp.sublist.subset hx), fun hx => h.2 (hp.sublist.subset hx)⟩

/-- Appending tokens that are neither `Indent` nor `Dedent` preserves
the loop invariant. -/
theorem lexInv_append_noDent {l : List Tok} {d : Nat} (h : LexInv l d)
    {m : List Tok} (hm : NoDent m) : LexInv (l ++ m) d := by
  obtain ⟨hbal, hcnt⟩ := h
  constructor
  · refine prefBalanced_append hbal fun p hp => ?_
    obtain ⟨h1, h2⟩ := noDent_counts (noDent_of_pref hm hp)
    have := hbal l List.prefix_rfl
    omega
  · obtain ⟨h1, h2⟩ := noDent_counts hm
    simp only [indCnt, dedCnt] at h1 h2 hcnt ⊢
    rw [List.count_append, List.count_append, h1, h2]
    omega

theorem count_replicate_ne {a b : Tok} (h : a ≠ b) (k : Nat) :
    (List.replicate k a).count b = 0 :=
  List.count_eq_zero.mpr fun hx => h (List.eq_of_mem_replicate hx).symm

/-- Emitting `k` `Indent` tokens raises the level by `k` and preserves
the invariant. -/
theorem lexInv_append_indents {l : List Tok} {d : Nat} (h : LexInv l d)
    (k : Nat) : LexInv (l ++ List.replicate k Tok.indent) (d + k) := by
  obtain ⟨hbal, hcnt⟩ := h
  constructor
  · refine prefBalanced_append hbal fun p hp => ?_
    have hded : dedCnt p = 0 := by
      refine List.count_eq_zero.mpr fun hx => ?_
      have := List.eq_of_mem_replicate (hp.sublist.subset hx)
      simp at this
    have := hbal l List.prefix_rfl
    omega
  · have h1 := count_replicate_ne (a := Tok.indent) (b := Tok.dedent) (by simp) k
    simp only [indCnt, dedCnt] at hcnt ⊢
    rw [List.count_append, List.count_append, List.count_replicate_self, h1]
    omega

/-- Emitting `k ≤ d` `Dedent` tokens lowers the level by `k` and
preserves the invariant. -/
theorem lexInv_append_dedents {l : List Tok} {d : Nat} (h : LexInv l d)
    (k : Nat) (hk : k ≤ d) :
    LexInv (l ++ List.replicate k Tok.dedent) (d - k) := by
  obtain ⟨hbal, hcnt⟩ := h
  simp only [indCnt, dedCnt] at hcnt
  constructor
  · refine prefBalanced_append hbal fun p hp => ?_
    have hle : dedCnt p ≤ k := by
      have hlen := hp.length_le
      simp only [List.length_replicate] at hlen
      exact le_trans (List.count_le_length _ _) hlen
    have := hbal l List.prefix_rfl
    simp only [indCnt, dedCnt] at *
    omega
  · have h1 := count_replicate_ne (a := Tok.dedent) (b := Tok.indent) (by simp) k
    simp only [indCnt, dedCnt]
    rw [List.count_append, List.count_append, List.count_replicate_self, h1]
    omega

/-- The indentation step preserves the invariant: it emits either
indents (raising the level accordingly) or at most `current_dent_`
dedents (lowering it accordingly). -/
theorem lexInv_dentGo {toks : List Tok} {dent : Nat} (h : LexInv toks dent)
    (input : List Char) {t : List Tok} {rest : List Char} {d' : Nat}
    (hg : dentGo dent input = .ok (t, rest, d')) : LexInv (toks ++ t) d' := by
  simp only [dentGo] at hg
  split at hg
  · simp only [Except.ok.injEq, Prod.mk.injEq] at hg
    obtain ⟨rfl, rfl, rfl⟩ := hg
    exact lexInv_append_noDent h noDent_nil
  · split at hg
    · cases hg
    · split at hg
      · rename_i hle
        simp only [Except.ok.injEq, Prod.mk.injEq] at hg
        obtain ⟨rfl, rfl, rfl⟩ := hg
        have h2 := lexInv_append_indents h
          ((input.takeWhile (· = ' ')).length / 2 - dent)
        rwa [Nat.add_sub_cancel' hle] at h2
      · rename_i hgt
        have hle : (input.takeWhile (· = ' ')).length / 2 ≤ dent :=
          Nat.le_of_lt (Nat.lt_of_not_le hgt)
        simp only [Except.ok.injEq, Prod.mk.injEq] at hg
        obtain ⟨rfl, rfl, rfl⟩ := hg
        have h2 := lexInv_append_dedents h
          (dent - (input.takeWhile (· = ' ')).length / 2) (Nat.sub_le _ _)
        rwa [Nat.sub_sub_self hle] at h2

theorem lexInv_extractDent {toks : List Tok} {dent : Nat} (h : LexInv toks dent)
    (back? : Option Tok) (input : List Char) {t : List Tok}
    {rest : List Char} {d' : Nat}
    (he : extractDentC back? dent input = .ok (t, rest, d')) :
    LexInv (toks ++ t) d' := by
  rcases back? with _ | tk
  · exact lexInv_dentGo h input (by simpa [extractDentC] using he)
  · cases tk
    case newline => exact lexInv_dentGo h input (by simpa [extractDentC] using he)
    all_goals
      simp only [extractDentC, Except.ok.injEq, Prod.mk.injEq] at he
    all_goals
      obtain ⟨rfl, rfl, rfl⟩ := he
      exact lexInv_append_noDent h noDent_nil

theorem lookup_mem_snd :
    ∀ (tbl : List (String × Tok)) (w : String) (t : Tok),
      tbl.lookup w = some t → t ∈ tbl.map Prod.snd := by
  intro tbl
  induction tbl with
  | nil => intro w t h; cases h
  | cons p rest ih =>
    intro w t h
    obtain ⟨k, v⟩ := p
    simp only [List.lookup] at h
    split at h
    · cases h
      simp
    · simp only [List.map_cons, List.mem_cons]
      exact Or.inr (ih w t h)

theorem keywordOf_noDent (w : String) :
    (keywordOf w).getD (Tok.id w) ≠ Tok.indent ∧
    (keywordOf w).getD (Tok.id w) ≠ Tok.dedent := by
  cases hk : keywordOf w with
  | none =>
    rw [Option.getD_none]
    exact ⟨fun h => Tok.noConfusion h, fun h => Tok.noConfusion h⟩
  | some t =>
    rw [Option.getD_some]
    have := lookup_mem_snd keywordTable w t hk
    revert this
    simp [keywordTable]
    rintro (rfl | rfl | rfl | rfl | rfl | rfl | rfl | rfl | rfl | rfl | rfl | rfl)
      <;> exact ⟨fun h => Tok.noConfusion h, fun h => Tok.noConfusion h⟩

theorem noDent_extractKeywordOrId (input : List Char) :
    NoDent (extractKeywordOrIdC input).1 := by
  unfold extractKeywordOrIdC
  cases input with
  | nil => exact noDent_nil
  | cons c rest =>
    dsimp only
    split
    · exact noDent_single (keywordOf_noDent _).1 (keywordOf_noDent _).2
    · exact noDent_nil

theorem noDent_extractOp (input : List Char) : NoDent (extractOpC input).1 := by
  unfold extractOpC
  cases input with
  | nil => exact noDent_nil
  | cons c rest =>
    dsimp only
    split
    · exact noDent_nil
    · split
      · exact noDent_nil
      · split <;> exact noDent_single (by simp) (by simp)

theorem noDent_extractInt (input : List Char) : NoDent (extractIntC input).1 := by
  unfold extractIntC
  cases input with
  | nil => exact noDent_nil
  | cons c rest =>
    dsimp only
    split
    · exact noDent_single (by simp) (by simp)
    · exact noDent_nil

/-- The string-literal loop only ever produces a `String` token. -/
theorem strBody_str (q : Char) :
    ∀ (n : Nat) (acc : String) (input : List Char), input.length ≤ n →
      ∀ t r, strBody q acc input = .ok (t, r) → ∃ a, t = Tok.str a := by
  intro n
  induction n with
  | zero =>
    intro acc input hlen t r h
    have hnil : input = [] := List.length_eq_zero.mp (Nat.le_zero.mp hlen)
    subst hnil
    unfold strBody at h
    simp only [Except.ok.injEq, Prod.mk.injEq] at h
    exact ⟨acc, h.1.symm⟩
  | succ k ih =>
    intro acc input hlen t r h
    cases input with
    | nil =>
      unfold strBody at h
      simp only [Except.ok.injEq, Prod.mk.injEq] at h
      exact ⟨acc, h.1.symm⟩
    | cons c rest =>
      unfold strBody at h
      split at h
      · simp only [Except.ok.injEq, Prod.mk.injEq] at h
        exact ⟨acc, h.1.symm⟩
      · split at h
        · cases rest with
          | nil => cases h
          | cons e rest' =>
            simp only at h
            split at h
            · refine ih _ rest' ?_ t r h
              simp only [List.length_cons] at hlen
              omega
            · cases h
        · split at h
          · cases h
          · refine ih _ rest ?_ t r h
            simp only [List.length_cons] at hlen
            omega

theorem noDent_extractString {input : List Char} {t : List Tok}
    {r : List Char} (h : extractStringC input = .ok (t, r)) : NoDent t := by
  cases input with
  | nil =>
    simp only [extractStringC, Except.ok.injEq, Prod.mk.injEq] at h
    obtain ⟨rfl, rfl⟩ := h
    exact noDent_nil
  | cons c rest =>
    simp only [extractStringC] at h
    split at h
    · cases hsb : strBody c "" rest with
      | error e => rw [hsb] at h; cases h
      | ok p =>
        obtain ⟨t0, r0⟩ := p
        rw [hsb] at h
        simp only [Except.ok.injEq, Prod.mk.injEq] at h
        obtain ⟨rfl, rfl⟩ := h
        obtain ⟨a, rfl⟩ := strBody_str c rest.length "" rest le_rfl t0 r0 hsb
        exact noDent_single (by simp) (by simp)
    · simp only [Except.ok.injEq, Prod.mk.injEq] at h
      obtain ⟨rfl, rfl⟩ := h
      exact noDent_nil

theorem noDent_extractComments (back? : Option Tok) (input : List Char) :
    NoDent (extractCommentsC back? input).1 := by
  unfold extractCommentsC
  split
  · split <;> first
      | exact noDent_nil
      | exact noDent_single (by simp) (by simp)
  · exact noDent_nil

theorem noDent_extractNewLine (back? : Option Tok) (input : List Char) :
    NoDent (extractNewLineC back? input).1 := by
  unfold extractNewLineC
  split
  · split <;> first
      | exact noDent_nil
      | exact noDent_single (by simp) (by simp)
  · exact noDent_nil

/-- One iteration of the lexing loop preserves the invariant. -/
theorem lexInv_lexStep {st st' : LexSt} (h : LexInv st.tokens st.currentDent)
    (he : lexStep st = .ok st') : LexInv st'.tokens st'.currentDent := by
  simp only [lexStep] at he
  split at he
  · cases he
  · rename_i t4 i4 heq4
    split at he
    · cases he
    · rename_i t8 i8 d8 heq8
      cases he
      exact lexInv_extractDent
        (lexInv_append_noDent
          (lexInv_append_noDent
            (lexInv_append_noDent
              (lexInv_append_noDent
                (lexInv_append_noDent
                  (lexInv_append_noDent h (noDent_extractKeywordOrId st.input))
                  (noDent_extractOp _))
                (noDent_extractInt _))
              (noDent_extractString heq4))
            (noDent_extractComments _ _))
          (noDent_extractNewLine _ _))
        _ _ heq8

/-- The whole lexing loop preserves the invariant. -/
theorem lexInv_lexLoop :
    ∀ (fuel : Nat) (st st' : LexSt), LexInv st.tokens st.currentDent →
      lexLoop fuel st = some (.ok st') → LexInv st'.tokens st'.currentDent := by
  intro fuel
  induction fuel with
  | zero =>
    intro st st' h he
    unfold lexLoop at he
    split at he
    · cases he; exact h
    · cases he
  | succ k ih =>
    intro st st' h he
    unfold lexLoop at he
    split at he
    · cases he; exact h
    · split at he
      · cases he
      · exact ih _ _ (lexInv_lexStep h (by assumption)) he

/-- The epilogue of `ParseTokens` appends no dent tokens, so the final
stream is prefix-balanced. -/
theorem prefBalanced_finish {toks : List Tok} {d : Nat} (h : LexInv toks d) :
    PrefBalanced (finishTokens toks) := by
  unfold finishTokens
  split
  · intro p hp
    obtain ⟨h1, h2⟩ :=
      noDent_counts (noDent_of_pref (noDent_single (by simp) (by simp)) hp)
    omega
  · exact (lexInv_append_noDent h (noDent_single (by simp) (by simp))).1
  · exact (lexInv_append_noDent h (noDent_single (by simp) (by simp))).1
  · exact (lexInv_append_noDent h (by constructor <;> simp)).1

/-! ### C2 — indent/dedent balance -/

/-- C2 counterexample: the input `"a\n  b"` — whose last line is
indented and not terminated by a newline — is accepted, yet its complete
token stream has one `Indent` and no `Dedent`: the closing dedents are
only emitted by an `ExtractDent` step that never runs when the stream
ends in the middle of a logical line. -/
theorem C2_counterexample :
    parseTokens 5 ['a', '\n', ' ', ' ', 'b']
      = some (.ok [Tok.id "a", Tok.newline, Tok.indent, Tok.id "b",
                   Tok.newline, Tok.eof]) ∧
    indCnt [Tok.id "a", Tok.newline, Tok.indent, Tok.id "b",
            Tok.newline, Tok.eof] = 1 ∧
    dedCnt [Tok.id "a", Tok.newline, Tok.indent, Tok.id "b",
            Tok.newline, Tok.eof] = 0 := by
  refine ⟨?_, ?_, ?_⟩ <;> rfl

/-- C2 (amended): for every input the lexer accepts, every prefix of the
produced token stream has at least as many `Indent` as `Dedent` tokens.
Over the complete stream the two counts need not be equal — the surplus
equals the lexer's final indentation level, which is non-zero for inputs
such as `"a\n  b"` (see the counterexample). -/
theorem C2_prefix_balance (fuel : Nat) (input : List Char) (toks : List Tok)
    (h : parseTokens fuel input = some (.ok toks)) :
    ∀ p, p <+: toks → dedCnt p ≤ indCnt p := by
  unfold parseTokens at h
  split at h
  · cases h
  · simp at h
  · rename_i st hl
    cases h
    have hinv : LexInv ([] : List Tok) 0 :=
      ⟨fun p hp => by rw [List.prefix_nil.mp hp]; exact Nat.le_refl _, rfl⟩
    exact prefBalanced_finish (lexInv_lexLoop fuel _ st hinv hl)

/-- Witness for C2 at a concrete accepted input and prefix. -/
theorem C2_prefix_balance_witness :
    dedCnt [Tok.id "a", Tok.newline, Tok.indent]
      ≤ indCnt [Tok.id "a", Tok.newline, Tok.indent] :=
  C2_prefix_balance 5 ['a', '\n', ' ', ' ', 'b']
    [Tok.id "a", Tok.newline, Tok.indent, Tok.id "b", Tok.newline, Tok.eof]
    (by rfl) [Tok.id "a", Tok.newline, Tok.indent]
    ⟨[Tok.id "b", Tok.newline, Tok.eof], rfl⟩

/-! ### C3 — odd leading spaces -/

/-- C3 counterexample: an input whose *first* line starts with exactly
three spaces is accepted without error — the constructor's initial
`RemovingSpacesBeforeTokens` strips the first line's leading spaces
before any indentation check can see them. -/
theorem C3_counterexample :
    parseTokens 5 [' ', ' ', ' ', 'a']
      = some (.ok [Tok.id "a", Tok.newline, Tok.eof]) := rfl

theorem takeWhile_spaces_replicate (n : Nat) (rest : List Char)
    (hrest : rest.head? ≠ some ' ') :
    ((List.replicate n ' ' ++ rest).takeWhile (· = ' ')).length = n := by
  induction n with
  | zero =>
    simp only [List.replicate, List.nil_append]
    cases rest with
    | nil => rfl
    | cons c t =>
      have hc : ¬ c = ' ' := fun hcc => hrest (by simp [hcc])
      rw [List.takeWhile_cons, if_neg (by simpa using hc)]
      rfl
  | succ k ih =>
    rw [List.replicate_succ, List.cons_append, List.takeWhile_cons,
      if_pos (by decide), List.length_cons, ih]

/-- C3 (amended): at the start of a logical line *other than the first*
— i.e. whenever `ExtractDent` runs: the previously emitted token is a
`Newline`, or no token has been emitted yet — an odd count of leading
spaces raises `LexerError`; in particular `"a\n   b"` is rejected.  The
first line of the stream is exempt, as the counterexample shows. -/
theorem C3_odd_indent_after_newline (back? : Option Tok) (dent : Nat)
    (n : Nat) (rest : List Char) (hodd : n % 2 = 1)
    (hrest : rest.head? ≠ some ' ')
    (hback : back? = none ∨ back? = some Tok.newline) :
    (∃ m, extractDentC back? dent (List.replicate n ' ' ++ rest) = .error m) ∧
    parseTokens 5 ['a', '\n', ' ', ' ', ' ', 'b']
      = some (.error
          "One of the indents contains an odd number of spaces. Num space = 3") := by
  constructor
  · have hhead : (List.replicate n ' ' ++ rest).head? = some ' ' := by
      cases n with
      | zero => omega
      | succ k => simp [List.replicate_succ]
    have hlen := takeWhile_spaces_replicate n rest hrest
    have hgo : ∃ m, dentGo dent (List.replicate n ' ' ++ rest) = .error m := by
      simp only [dentGo, hhead, hlen, hodd]
      rw [if_pos trivial]
      exact ⟨_, rfl⟩
    rcases hback with rfl | rfl
    · simpa [extractDentC] using hgo
    · simpa [extractDentC] using hgo
  · rfl

/-- Witness for C3 at concrete inputs: three spaces after a `Newline`
raise the error. -/
theorem C3_odd_indent_after_newline_witness :
    ∃ m, extractDentC (some Tok.newline) 0
      (List.replicate 3 ' ' ++ ['b']) = .error m :=
  (C3_odd_indent_after_newline (some Tok.newline) 0 3 ['b'] (by decide)
    (by decide) (Or.inr rfl)).1

/-! ### C9 — `Stringify` and the output sink -/

/-- Helper: printing a non-instance value writes only to the local
buffer; the state (and so the output sink) is untouched. -/
theorem objPrint_non_inst (Γ : ClassEnv) (fuel : Nat) (v : Value) (s : St)
    (hv : ∀ a, v ≠ Value.inst a) :
    ∃ t, objPrint Γ fuel v s = .ok t s := by
  cases v with
  | number n => exact ⟨toString n, by cases fuel <;> rfl⟩
  | str t => exact ⟨t, by cases fuel <;> rfl⟩
  | bool b => exact ⟨if b then "True" else "False", by cases fuel <;> rfl⟩
  | cls i =>
    exact ⟨"Class " ++ ((Γ[i]?).map Class.name).getD "", by cases fuel <;> rfl⟩
  | inst a => exact absurd rfl (hv a)

/-- C9 counterexample: `Stringify` on an instance whose `__str__` is
`print "x"` returns the owned `String "x"` but the user output sink —
empty after the argument itself was evaluated — ends up holding
`"x\n"`: rendering via `ClassInstance::Print` runs the `__str__` body
against the real context. -/
theorem C9_counterexample :
    stringifyExec egStrEnv 2
      (fun cl s => Res.ok (some (Value.inst 0)) cl s) [] egSt0
      = .ok (some (Value.str "x")) [] ⟨[⟨0, []⟩], "x\n"⟩ ∧
    egSt0.output = "" ∧
    (fun cl s => Res.ok (some (Value.inst 0)) cl s : Stmt) [] egSt0
      = .ok (some (Value.inst 0)) [] egSt0 :=
  ⟨rfl, rfl, rfl⟩

/-- C9 (amended): `Stringify` returns an owned `String` — the literal
`"None"` for an empty argument, otherwise the `Object::Print` rendering
into a fresh buffer — and for empty and non-instance argument values the
state after the argument's own evaluation is returned unchanged, so
nothing further is written to the user output sink.  (For a
`ClassInstance` argument the rendering may invoke `__str__`, whose body
runs against the real context and may write to the sink, as the
counterexample shows.) -/
theorem C9_stringify_sink (Γ : ClassEnv) (fuel : Nat) (arg : Stmt)
    (cl : Closure) (s : St) :
    (∀ cl' s', arg cl s = .ok none cl' s' →
      stringifyExec Γ fuel arg cl s = .ok (some (Value.str "None")) cl' s') ∧
    (∀ v cl' s', arg cl s = .ok (some v) cl' s' → (∀ a, v ≠ Value.inst a) →
      ∃ t, stringifyExec Γ fuel arg cl s = .ok (some (Value.str t)) cl' s') := by
  constructor
  · intro cl' s' h
    simp only [stringifyExec, h]
  · intro v cl' s' h hv
    obtain ⟨t, ht⟩ := objPrint_non_inst Γ fuel v s' hv
    exact ⟨t, by simp only [stringifyExec, h, ht]⟩

/-- Witness for C9 at concrete inputs: an argument evaluating to a
`Number` leaves the sink untouched. -/
theorem C9_stringify_sink_witness :
    ∃ t, stringifyExec [] 1
      (fun cl s => Res.ok (some (Value.number 5)) cl s) [] egSt0
      = .ok (some (Value.str t)) [] egSt0 :=
  (C9_stringify_sink [] 1 (fun cl s => Res.ok (some (Value.number 5)) cl s)
    [] egSt0).2 (Value.number 5) [] egSt0 rfl (fun a => by simp)

end Mython
